import Mathlib

/-!
Shallow embedding of the `memo` in-process TTL cache (package `cache` /
`memo`). The entry map `items` is modelled as an association list with
unique keys (Go `map[string]*Item[T]`); `items = none` models the nil map
left behind by `Close`. Instants (`time.Time`) and durations
(`time.Duration`) are modelled as integers (nanoseconds); `time.Now()` is
passed as an explicit `now` argument. `reflect`-based `getSize` is
abstracted as a size function `sz : V → Int` (in Go it is a constant of the
instantiated type). The eviction callback is modelled by a registration
flag plus the list of `(key, value)` invocations each operation emits.
`encoding/json` is an external library; serialized bytes are modelled as
the structured snapshot itself (`Option` at the decoding side, `none`
standing for malformed input).
-/

namespace Memo

deriving instance DecidableEq for Except

/-- Error values returned by the cache (Go errors, by kind). -/
inductive CacheErr where
  | closed
  | notFound (key : String)
  | expired (key : String)
  | cancelled
  | decode
deriving DecidableEq, Repr

/-- `Item[T]`: a stored value plus its absolute expiry instant (field `TTL`). -/
structure Item (V : Type) where
  value : V
  ttl : Int
deriving DecidableEq, Repr

/-- `stat.Stats`: running counters kept by the engine. The derived float
field `HitRate` is computed only inside `Stat()` and is not part of the
stored state. -/
structure Stats where
  hits : Nat
  misses : Nat
  evictions : Nat
  sizeBytes : Int
deriving DecidableEq, Repr

/-- The entry mapping, as an association list with unique keys. -/
abbrev Entries (V : Type) := List (String × Item V)

/-- A decoded snapshot: the intermediate `map[string]struct{Value; TTL}`
both codec directions go through. -/
abbrev Snapshot (V : Type) := List (String × Item V)

/-- `Cache[T]`: `items = none` is the nil map after `Close`; `onEvicted`
records whether a callback is registered; `cancelSet` models
`c.cancel != nil` and `ctxCancelled` whether the engine's own context has
been cancelled. -/
structure Cache (V : Type) where
  items : Option (Entries V)
  onEvicted : Bool
  stat : Stats
  sizeof : Int
  cancelSet : Bool
  ctxCancelled : Bool
deriving DecidableEq, Repr

/-- `cache.New`: empty map, zero stats, zero sizeof, a live cancel func. -/
def newCache (V : Type) : Cache V :=
  { items := some []
    onEvicted := false
    stat := { hits := 0, misses := 0, evictions := 0, sizeBytes := 0 }
    sizeof := 0
    cancelSet := true
    ctxCancelled := false }

/-- Lookup in the association list (Go map read `c.items[key]`). -/
def lookupKey {V : Type} (k : String) : Entries V → Option (Item V)
  | [] => none
  | (k', it) :: rest => if k' = k then some it else lookupKey k rest

/-- Map assignment `c.items[key] = it`: replace the existing binding or
append a fresh one. -/
def insertKey {V : Type} (k : String) (it : Item V) : Entries V → Entries V
  | [] => [(k, it)]
  | (k', it') :: rest =>
      if k' = k then (k, it) :: rest else (k', it') :: insertKey k it rest

/-- Map deletion `delete(c.items, key)` (removes every binding of `k`;
with unique keys this is the single Go map slot). -/
def eraseKey {V : Type} (k : String) : Entries V → Entries V
  | [] => []
  | (k', it') :: rest =>
      if k' = k then eraseKey k rest else (k', it') :: eraseKey k rest

/-- The well-formedness invariant of a Go map image: pairwise distinct keys. -/
def keysNodup {V : Type} (l : Entries V) : Prop := (l.map Prod.fst).Nodup

instance {V : Type} (l : Entries V) : Decidable (keysNodup l) :=
  List.nodupDecidable (l.map Prod.fst)

/-- `Set(key, value, ttl)` executed at instant `now` with size oracle `sz`
(models `getSize`). Returns the Go error (or `ok`) and the new state. -/
def Set {V : Type} (sz : V → Int) (c : Cache V) (key : String) (value : V)
    (ttl now : Int) : Except CacheErr Unit × Cache V :=
  match c.items with
  | none => (.error .closed, c)
  | some items =>
      let szof := if c.sizeof = 0 then sz value else c.sizeof
      (.ok (),
        { c with
            sizeof := szof
            stat := { c.stat with sizeBytes := c.stat.sizeBytes + szof }
            items := some (insertKey key { value := value, ttl := now + ttl } items) })

/-- `SetWithContext(ctx, key, value, ttl)`: `done` models `ctx.Done()`
having fired already; the body after the select is a verbatim copy of
`Set` (as in the source). -/
def SetWithContext {V : Type} (sz : V → Int) (done : Bool) (c : Cache V)
    (key : String) (value : V) (ttl now : Int) : Except CacheErr Unit × Cache V :=
  if done then (.error .cancelled, c)
  else
    match c.items with
    | none => (.error .closed, c)
    | some items =>
        let szof := if c.sizeof = 0 then sz value else c.sizeof
        (.ok (),
          { c with
              sizeof := szof
              stat := { c.stat with sizeBytes := c.stat.sizeBytes + szof }
              items := some (insertKey key { value := value, ttl := now + ttl } items) })

/-- `Get(key)` at instant `now`. Besides the result and the new state it
returns the eviction-callback invocations performed (`time.Now().After(TTL)`
is the strict comparison `TTL < now`). -/
def Get {V : Type} (c : Cache V) (key : String) (now : Int) :
    Except CacheErr V × Cache V × List (String × V) :=
  match c.items with
  | none => (.error .closed, c, [])
  | some items =>
      match lookupKey key items with
      | none =>
          (.error (.notFound key),
           { c with stat := { c.stat with misses := c.stat.misses + 1 } }, [])
      | some item =>
          if item.ttl < now then
            (.error (.expired key),
             { c with
                 items := some (eraseKey key items)
                 stat := { c.stat with
                     evictions := c.stat.evictions + 1
                     sizeBytes := c.stat.sizeBytes - c.sizeof } },
             if c.onEvicted then [(key, item.value)] else [])
          else
            (.ok item.value,
             { c with stat := { c.stat with hits := c.stat.hits + 1 } }, [])

/-- `GetWithContext(ctx, key)`: cancellation pre-check, then a verbatim
copy of the `Get` body (as in the source). -/
def GetWithContext {V : Type} (done : Bool) (c : Cache V) (key : String)
    (now : Int) : Except CacheErr V × Cache V × List (String × V) :=
  if done then (.error .cancelled, c, [])
  else
    match c.items with
    | none => (.error .closed, c, [])
    | some items =>
        match lookupKey key items with
        | none =>
            (.error (.notFound key),
             { c with stat := { c.stat with misses := c.stat.misses + 1 } }, [])
        | some item =>
            if item.ttl < now then
              (.error (.expired key),
               { c with
                   items := some (eraseKey key items)
                   stat := { c.stat with
                       evictions := c.stat.evictions + 1
                       sizeBytes := c.stat.sizeBytes - c.sizeof } },
               if c.onEvicted then [(key, item.value)] else [])
            else
              (.ok item.value,
               { c with stat := { c.stat with hits := c.stat.hits + 1 } }, [])

/-- `OnEvicted(fn)`: registers the (single) eviction callback. -/
def OnEvicted {V : Type} (c : Cache V) : Except CacheErr Unit × Cache V :=
  match c.items with
  | none => (.error .closed, c)
  | some _ => (.ok (), { c with onEvicted := true })

/-- `MarshalJSON()`: copies every entry into the serializable snapshot and
encodes it; the external `json.Marshal` is modelled as faithful, so the
produced bytes are the snapshot itself. -/
def MarshalJSON {V : Type} (c : Cache V) : Except CacheErr (Snapshot V) :=
  match c.items with
  | none => .error .closed
  | some items => .ok items

/-- `MarshalJSONWithContext(ctx)`: cancellation pre-check, then a verbatim
copy of the `MarshalJSON` body. -/
def MarshalJSONWithContext {V : Type} (done : Bool) (c : Cache V) :
    Except CacheErr (Snapshot V) :=
  if done then .error .cancelled
  else
    match c.items with
    | none => .error .closed
    | some items => .ok items

/-- `UnmarshalJSON(bytes)`: `bytes` is the decoded snapshot (`none` models
input on which `json.Unmarshal` fails); each decoded pair is assigned into
the existing map. -/
def UnmarshalJSON {V : Type} (c : Cache V) (bytes : Option (Snapshot V)) :
    Except CacheErr Unit × Cache V :=
  match c.items with
  | none => (.error .closed, c)
  | some items =>
      match bytes with
      | none => (.error .decode, c)
      | some temp =>
          (.ok (),
            { c with
                items := some (temp.foldl (fun acc kv => insertKey kv.1 kv.2 acc) items) })

/-- `UnmarshalJSONWithContext(ctx, bytes)`: cancellation pre-check, then a
verbatim copy of the `UnmarshalJSON` body. -/
def UnmarshalJSONWithContext {V : Type} (done : Bool) (c : Cache V)
    (bytes : Option (Snapshot V)) : Except CacheErr Unit × Cache V :=
  if done then (.error .cancelled, c)
  else
    match c.items with
    | none => (.error .closed, c)
    | some items =>
        match bytes with
        | none => (.error .decode, c)
        | some temp =>
            (.ok (),
              { c with
                  items := some (temp.foldl (fun acc kv => insertKey kv.1 kv.2 acc) items) })

/-- `Stat()`: snapshot of the counters (the derived float `HitRate` is
outside the integer model). -/
def Stat {V : Type} (c : Cache V) : Stats := c.stat

/-- `Close()`: if already closed, a no-op; otherwise cancel the engine's own
context (when the cancel func is still set), drop the cancel func, and set
the map to nil. -/
def Close {V : Type} (c : Cache V) : Cache V :=
  match c.items with
  | none => c
  | some _ =>
      { c with
          ctxCancelled := c.ctxCancelled || c.cancelSet
          cancelSet := false
          items := none }

/-- One iteration of the sweeper's delete phase (body of the loop over
`expiredKeys` in `clean`): delete the key, invoke the callback when
registered, bump `Evictions`, subtract `sizeof` from `SizeBytes`. -/
def cleanStep {V : Type} (sizeof : Int) (cb : Bool)
    (st : Entries V × Stats × List (String × V)) (kv : String × Item V) :
    Entries V × Stats × List (String × V) :=
  (eraseKey kv.1 st.1,
   { st.2.1 with
       evictions := st.2.1.evictions + 1
       sizeBytes := st.2.1.sizeBytes - sizeof },
   st.2.2 ++ (if cb then [(kv.1, kv.2.value)] else []))

/-- `clean` (one sweeper cycle) run at instant `now`: mark every entry whose
expiry has passed, then run the delete phase over the marked list. Over a
nil map (closed engine) the range loop is empty and nothing happens.
Returns the new state and the callback invocations. -/
def clean {V : Type} (c : Cache V) (now : Int) : Cache V × List (String × V) :=
  match c.items with
  | none => (c, [])
  | some items =>
      let expired := items.filter (fun kv => decide (kv.2.ttl < now))
      if 0 < expired.length then
        let final := expired.foldl (cleanStep c.sizeof c.onEvicted) (items, c.stat, [])
        ({ c with items := some final.1, stat := final.2.1 }, final.2.2)
      else (c, [])

/-- One engine operation of a sequential history, with its explicit
instants / cancellation flags / decoded inputs. -/
inductive Op (V : Type) where
  | set (key : String) (value : V) (ttl now : Int)
  | setCtx (done : Bool) (key : String) (value : V) (ttl now : Int)
  | get (key : String) (now : Int)
  | getCtx (done : Bool) (key : String) (now : Int)
  | sweep (now : Int)
  | register
  | marshal
  | unmarshal (bytes : Option (Snapshot V))
  | close

/-- The state reached after one operation. -/
def step {V : Type} (sz : V → Int) (c : Cache V) : Op V → Cache V
  | .set key value ttl now => (Set sz c key value ttl now).2
  | .setCtx done key value ttl now => (SetWithContext sz done c key value ttl now).2
  | .get key now => (Get c key now).2.1
  | .getCtx done key now => (GetWithContext done c key now).2.1
  | .sweep now => (clean c now).1
  | .register => (OnEvicted c).2
  | .marshal => c
  | .unmarshal bytes => (UnmarshalJSON c bytes).2
  | .close => Close c

/-- The state reached after a sequence of operations. -/
def run {V : Type} (sz : V → Int) (c : Cache V) : List (Op V) → Cache V
  | [] => c
  | op :: ops => run sz (step sz c op) ops

/-- Whether an operation is a completed read attempt that found a live
entry or found no entry at all (observed from its result). -/
def readScore {V : Type} (c : Cache V) : Op V → Nat
  | .get key now =>
      match (Get c key now).1 with
      | .ok _ => 1
      | .error (.notFound _) => 1
      | _ => 0
  | .getCtx done key now =>
      match (GetWithContext done c key now).1 with
      | .ok _ => 1
      | .error (.notFound _) => 1
      | _ => 0
  | _ => 0

/-- How many entries an operation removes because of expiry (a lazy
eviction inside a read, or the sweeper's delete phase). -/
def evictScore {V : Type} (c : Cache V) : Op V → Nat
  | .get key now =>
      match (Get c key now).1 with
      | .error (.expired _) => 1
      | _ => 0
  | .getCtx done key now =>
      match (GetWithContext done c key now).1 with
      | .error (.expired _) => 1
      | _ => 0
  | .sweep now =>
      match c.items with
      | none => 0
      | some items => (items.filter (fun kv => decide (kv.2.ttl < now))).length
  | _ => 0

/-- Total `readScore` along a history. -/
def readCount {V : Type} (sz : V → Int) (c : Cache V) : List (Op V) → Nat
  | [] => 0
  | op :: ops => readScore c op + readCount sz (step sz c op) ops

/-- Total `evictScore` along a history. -/
def evictCount {V : Type} (sz : V → Int) (c : Cache V) : List (Op V) → Nat
  | [] => 0
  | op :: ops => evictScore c op + evictCount sz (step sz c op) ops

/-- `n` successive `Set` calls with the same key, value, TTL and instant. -/
def setN {V : Type} (sz : V → Int) (key : String) (value : V) (ttl now : Int) :
    Nat → Cache V → Cache V
  | 0, c => c
  | n + 1, c => setN sz key value ttl now n (Set sz c key value ttl now).2

/-- A concrete size oracle for `Int`-valued witnesses (a fixed per-type
byte size, as `reflect.TypeOf(val).Size()` yields in Go). -/
def szInt : Int → Int := fun _ => 8

/-- A concrete two-entry mapping (the second entry already expired at any
nonnegative instant) used by the witnesses. -/
def sampleEntries : Entries Int :=
  [("a", { value := 1, ttl := 5 }), ("b", { value := 2, ttl := -3 })]

/-- A concrete open engine holding `sampleEntries`. -/
def sampleCache : Cache Int := { newCache Int with items := some sampleEntries }

/-- A concrete snapshot overlapping `sampleEntries` on key "b". -/
def sampleSnap : Snapshot Int :=
  [("b", { value := 9, ttl := 50 }), ("c", { value := 3, ttl := 7 })]

theorem lookupKey_insertKey {V : Type} (k k' : String) (it : Item V) (l : Entries V) :
    lookupKey k (insertKey k' it l) = if k' = k then some it else lookupKey k l := by
  induction l with
  | nil => simp [insertKey, lookupKey]
  | cons hd tl ih =>
      obtain ⟨k₀, it₀⟩ := hd
      simp only [insertKey]
      by_cases h0 : k₀ = k'
      · subst h0
        by_cases hk : k₀ = k
        · subst hk
          simp [lookupKey]
        · simp [lookupKey, hk]
      · rw [if_neg h0]
        by_cases hk : k₀ = k
        · subst hk
          have hk' : ¬ k' = k₀ := fun h => h0 h.symm
          simp [lookupKey, hk']
        · simp [lookupKey, hk, ih]

theorem lookupKey_eraseKey {V : Type} (k k' : String) (l : Entries V) :
    lookupKey k (eraseKey k' l) = if k' = k then none else lookupKey k l := by
  induction l with
  | nil => simp [eraseKey, lookupKey]
  | cons hd tl ih =>
      obtain ⟨k₀, it₀⟩ := hd
      simp only [eraseKey]
      by_cases h0 : k₀ = k'
      · subst h0
        rw [if_pos rfl, ih]
        by_cases hk : k₀ = k
        · simp [hk]
        · simp [lookupKey, hk]
      · rw [if_neg h0]
        by_cases hk : k₀ = k
        · have hk2 : ¬ k' = k := fun h => h0 (hk.trans h.symm)
          simp [lookupKey, hk, hk2]
        · simp [lookupKey, hk, ih]

theorem lookupKey_eq_none_iff {V : Type} (k : String) (l : Entries V) :
    lookupKey k l = none ↔ k ∉ l.map Prod.fst := by
  induction l with
  | nil => simp [lookupKey]
  | cons hd tl ih =>
      obtain ⟨k₀, it₀⟩ := hd
      by_cases hk : k₀ = k
      · simp [lookupKey, hk]
      · have hne : k ≠ k₀ := fun h => hk h.symm
        simp [lookupKey, hk, ih, hne]

theorem lookupKey_mem {V : Type} {k : String} {it : Item V} {l : Entries V}
    (h : lookupKey k l = some it) : (k, it) ∈ l := by
  induction l with
  | nil => simp [lookupKey] at h
  | cons hd tl ih =>
      obtain ⟨k₀, it₀⟩ := hd
      simp only [lookupKey] at h
      by_cases hk : k₀ = k
      · rw [if_pos hk] at h
        injection h with h
        subst h
        subst hk
        exact List.mem_cons_self _ _
      · rw [if_neg hk] at h
        exact List.mem_cons_of_mem _ (ih h)

theorem lookupKey_of_mem_nodup {V : Type} {l : Entries V} (hnd : keysNodup l)
    {k : String} {it : Item V} (h : (k, it) ∈ l) : lookupKey k l = some it := by
  induction l with
  | nil => simp at h
  | cons hd tl ih =>
      obtain ⟨k₀, it₀⟩ := hd
      have hnd' := hnd
      rw [keysNodup, List.map_cons, List.nodup_cons] at hnd'
      rcases List.mem_cons.1 h with heq | hmem
      · rw [Prod.ext_iff] at heq
        obtain ⟨hk, hit⟩ := heq
        simp only at hk hit
        subst hk
        simp [lookupKey, hit]
      · have hkin : k ∈ tl.map Prod.fst := List.mem_map.2 ⟨(k, it), hmem, rfl⟩
        have hne : ¬ k₀ = k := fun h0 => hnd'.1 (h0 ▸ hkin)
        simp only [lookupKey, if_neg hne]
        exact ih hnd'.2 hmem

theorem lookupKey_foldl_insertKey {V : Type} (snap : Snapshot V) :
    ∀ (acc : Entries V) (k : String), keysNodup snap →
    lookupKey k (snap.foldl (fun a kv => insertKey kv.1 kv.2 a) acc)
      = match lookupKey k snap with
        | some it => some it
        | none => lookupKey k acc := by
  induction snap with
  | nil => intro acc k _; simp [lookupKey]
  | cons hd tl ih =>
      intro acc k hnd
      obtain ⟨k₀, it₀⟩ := hd
      have hnd' := hnd
      rw [keysNodup, List.map_cons, List.nodup_cons] at hnd'
      rw [List.foldl_cons]
      rw [ih (insertKey k₀ it₀ acc) k hnd'.2]
      by_cases hk : k₀ = k
      · subst hk
        have hnone : lookupKey k₀ tl = none :=
          (lookupKey_eq_none_iff k₀ tl).2 hnd'.1
        simp [lookupKey, hnone, lookupKey_insertKey]
      · simp only [lookupKey, if_neg hk]
        cases htl : lookupKey k tl with
        | some it => simp
        | none => simp [lookupKey_insertKey, hk]

theorem lookupKey_foldl_eraseKey {V : Type} (exp : Entries V) :
    ∀ (l : Entries V) (k : String),
    lookupKey k (exp.foldl (fun a kv => eraseKey kv.1 a) l)
      = if k ∈ exp.map Prod.fst then none else lookupKey k l := by
  induction exp with
  | nil => intro l k; simp
  | cons hd tl ih =>
      intro l k
      obtain ⟨k₀, it₀⟩ := hd
      rw [List.foldl_cons, ih]
      by_cases hmem : k ∈ tl.map Prod.fst
      · simp [hmem]
      · by_cases hk : k₀ = k
        · simp [hmem, hk, lookupKey_eraseKey]
        · have hne : ¬ k = k₀ := fun h => hk h.symm
          simp [hmem, hk, lookupKey_eraseKey, hne]

theorem foldl_cleanStep_spec {V : Type} (sizeof : Int) (cb : Bool) (exp : Entries V) :
    ∀ st : Entries V × Stats × List (String × V),
    (exp.foldl (cleanStep sizeof cb) st).1
        = exp.foldl (fun a kv => eraseKey kv.1 a) st.1 ∧
    (exp.foldl (cleanStep sizeof cb) st).2.1.hits = st.2.1.hits ∧
    (exp.foldl (cleanStep sizeof cb) st).2.1.misses = st.2.1.misses ∧
    (exp.foldl (cleanStep sizeof cb) st).2.1.evictions
        = st.2.1.evictions + exp.length ∧
    (exp.foldl (cleanStep sizeof cb) st).2.1.sizeBytes
        = st.2.1.sizeBytes - exp.length * sizeof ∧
    (exp.foldl (cleanStep sizeof cb) st).2.2
        = st.2.2 ++ (if cb then exp.map (fun kv => (kv.1, kv.2.value)) else []) := by
  induction exp with
  | nil => intro st; simp
  | cons hd tl ih =>
      intro st
      rw [List.foldl_cons]
      obtain ⟨h1, h2, h3, h4, h5, h6⟩ := ih (cleanStep sizeof cb st hd)
      refine ⟨?_, ?_, ?_, ?_, ?_, ?_⟩
      · rw [h1]; rfl
      · rw [h2]; rfl
      · rw [h3]; rfl
      · rw [h4]
        simp [cleanStep]
        omega
      · rw [h5]
        simp [cleanStep]
        ring
      · rw [h6]
        cases cb <;> simp [cleanStep]

theorem mem_expiredKeys_iff {V : Type} {l : Entries V} (hnd : keysNodup l)
    (now : Int) (k : String) :
    k ∈ (l.filter (fun kv => decide (kv.2.ttl < now))).map Prod.fst ↔
      ∃ it, lookupKey k l = some it ∧ it.ttl < now := by
  constructor
  · intro h
    obtain ⟨kv, hmem, hfst⟩ := List.mem_map.1 h
    obtain ⟨hin, hdec⟩ := List.mem_filter.1 hmem
    obtain ⟨k₁, it₁⟩ := kv
    simp only at hfst
    subst hfst
    refine ⟨it₁, lookupKey_of_mem_nodup hnd hin, by simpa using hdec⟩
  · rintro ⟨it, hl, hlt⟩
    exact List.mem_map.2
      ⟨(k, it), List.mem_filter.2 ⟨lookupKey_mem hl, by simpa using hlt⟩, rfl⟩

/-- C6: for every already-cancelled token, `SetWithContext` and
`GetWithContext` fail with the token's cancellation error and leave the
engine completely unchanged: no entry is created, overwritten or removed,
no counter changes, and no eviction callback fires. -/
theorem C6_cancelled_token_noop {V : Type} (sz : V → Int) (c : Cache V)
    (key : String) (value : V) (ttl now : Int) :
    SetWithContext sz true c key value ttl now = (.error .cancelled, c) ∧
    GetWithContext true c key now = (.error .cancelled, c, []) :=
  ⟨rfl, rfl⟩

/-- C7: for every token that is not cancelled, `SetWithContext` produces
exactly the same result, state change and callback invocations as `Set`,
and `GetWithContext` the same as `Get` — including the eviction-callback
invocation and all counter updates on the expired path. -/
theorem C7_withContext_refines {V : Type} (sz : V → Int) (c : Cache V)
    (key : String) (value : V) (ttl now : Int) :
    SetWithContext sz false c key value ttl now = Set sz c key value ttl now ∧
    GetWithContext false c key now = Get c key now :=
  ⟨rfl, rfl⟩

/-- C3 fails as stated: `Set` at instant 100 with TTL -5 succeeds and
stores an entry whose expiry instant 95 lies strictly before the creation
instant, so an entry with expiry in the past is created. -/
theorem C3_counterexample :
    (Set szInt (newCache Int) "k" 0 (-5) 100).1 = .ok () ∧
    lookupKey "k" ((Set szInt (newCache Int) "k" 0 (-5) 100).2.items.getD [])
      = some { value := 0, ttl := 95 } ∧
    (95 : Int) < 100 := by
  decide

/-- C3 (amended): a successful `Set` (or `SetWithContext` with a live
token) executed at instant `now` with TTL `ttl` stores an entry whose
expiry equals `now + ttl`; whenever the TTL is nonnegative that expiry is
not in the past. (The original claim asserted no past expiry even for
negative TTLs, which the code refutes.) -/
theorem C3_set_expiry {V : Type} (sz : V → Int) (c : Cache V) (l : Entries V)
    (hc : c.items = some l) (key : String) (value : V) (ttl now : Int) :
    (Set sz c key value ttl now).1 = .ok () ∧
    (∃ l₁, (Set sz c key value ttl now).2.items = some l₁ ∧
      lookupKey key l₁ = some { value := value, ttl := now + ttl }) ∧
    (0 ≤ ttl → now ≤ now + ttl) ∧
    SetWithContext sz false c key value ttl now = Set sz c key value ttl now := by
  refine ⟨by simp [Set, hc], ?_, by omega, rfl⟩
  exact ⟨insertKey key { value := value, ttl := now + ttl } l,
    by simp [Set, hc], by simp [lookupKey_insertKey]⟩

/-- Witness for C3 (amended) at a concrete input. -/
theorem C3_set_expiry_witness :
    sampleCache.items = some sampleEntries ∧
    ((Set szInt sampleCache "k" 4 5 100).1 = .ok () ∧
     (∃ l₁, (Set szInt sampleCache "k" 4 5 100).2.items = some l₁ ∧
       lookupKey "k" l₁ = some { value := 4, ttl := 100 + 5 }) ∧
     ((0 : Int) ≤ 5 → (100 : Int) ≤ 100 + 5) ∧
     SetWithContext szInt false sampleCache "k" 4 5 100
       = Set szInt sampleCache "k" 4 5 100) :=
  ⟨rfl, C3_set_expiry szInt sampleCache sampleEntries rfl "k" 4 5 100⟩

/-- C4 fails as stated at the expiry boundary: an entry whose expiry
instant equals the current instant (`Set` at 0 with TTL 100, `Get` at
100) is returned as a live hit, not evicted with `ExpiredError` as the
claim's "expiresAt at or before now" requires. -/
theorem C4_counterexample :
    (Get ((Set szInt (newCache Int) "k" 7 100 0).2) "k" 100).1 = .ok 7 ∧
    (Get ((Set szInt (newCache Int) "k" 7 100 0).2) "k" 100).2.1.stat.hits = 1 ∧
    (Get ((Set szInt (newCache Int) "k" 7 100 0).2) "k" 100).2.1.stat.evictions = 0 := by
  decide

/-- C4 (amended): on a non-closed engine, `Get` of an absent key
increments `Misses` and fails with `NotFoundError`; of a key whose expiry
is strictly before now it invokes the eviction callback (when registered)
with the key and value, removes the entry, increments `Evictions`,
subtracts `sizeof` from `SizeBytes`, and fails with `ExpiredError`; of a
key whose expiry is at or after now it increments `Hits` and returns the
stored value. (The original claim evicted already at `expiresAt = now`;
the code treats that instant as live.) -/
theorem C4_get_cases {V : Type} (c : Cache V) (l : Entries V)
    (hc : c.items = some l) (key : String) (now : Int) :
    (lookupKey key l = none →
      Get c key now = (.error (.notFound key),
        { c with stat := { c.stat with misses := c.stat.misses + 1 } }, [])) ∧
    (∀ it, lookupKey key l = some it → it.ttl < now →
      Get c key now = (.error (.expired key),
        { c with
            items := some (eraseKey key l)
            stat := { c.stat with
                evictions := c.stat.evictions + 1
                sizeBytes := c.stat.sizeBytes - c.sizeof } },
        if c.onEvicted then [(key, it.value)] else [])) ∧
    (∀ it, lookupKey key l = some it → now ≤ it.ttl →
      Get c key now = (.ok it.value,
        { c with stat := { c.stat with hits := c.stat.hits + 1 } }, [])) := by
  refine ⟨?_, ?_, ?_⟩
  · intro h
    simp [Get, hc, h]
  · intro it h hlt
    simp [Get, hc, h, hlt]
  · intro it h hle
    simp [Get, hc, h, not_lt.2 hle]

/-- Witness for C4 (amended) at a concrete input. -/
theorem C4_get_cases_witness :
    sampleCache.items = some sampleEntries ∧
    ((lookupKey "a" sampleEntries = none →
      Get sampleCache "a" 0 = (.error (.notFound "a"),
        { sampleCache with
            stat := { sampleCache.stat with
                misses := sampleCache.stat.misses + 1 } }, [])) ∧
     (∀ it, lookupKey "a" sampleEntries = some it → it.ttl < 0 →
      Get sampleCache "a" 0 = (.error (.expired "a"),
        { sampleCache with
            items := some (eraseKey "a" sampleEntries)
            stat := { sampleCache.stat with
                evictions := sampleCache.stat.evictions + 1
                sizeBytes := sampleCache.stat.sizeBytes - sampleCache.sizeof } },
        if sampleCache.onEvicted then [("a", it.value)] else [])) ∧
     (∀ it, lookupKey "a" sampleEntries = some it → (0 : Int) ≤ it.ttl →
      Get sampleCache "a" 0 = (.ok it.value,
        { sampleCache with
            stat := { sampleCache.stat with
                hits := sampleCache.stat.hits + 1 } }, []))) :=
  ⟨rfl, C4_get_cases sampleCache sampleEntries rfl "a" 0⟩

/-- C1: serializing a mapping with `MarshalJSON` and deserializing the
produced snapshot with `UnmarshalJSON` into a fresh (empty, non-closed)
engine yields a mapping with exactly the same keys, each bound to the same
value and the same absolute expiry instant — including entries whose
expiry is already in the past (no filtering happens in either direction). -/
theorem C1_marshal_unmarshal_roundtrip {V : Type} (c : Cache V) (l : Entries V)
    (hc : c.items = some l) (hnd : keysNodup l) :
    MarshalJSON c = .ok l ∧
    (UnmarshalJSON (newCache V) (some l)).1 = .ok () ∧
    ∃ l', (UnmarshalJSON (newCache V) (some l)).2.items = some l' ∧
      ∀ k, lookupKey k l' = lookupKey k l := by
  refine ⟨by simp [MarshalJSON, hc], rfl, ?_⟩
  have hu : (UnmarshalJSON (newCache V) (some l)).2.items
      = some (l.foldl (fun (a : Entries V) kv => insertKey kv.1 kv.2 a) []) := rfl
  refine ⟨l.foldl (fun (a : Entries V) kv => insertKey kv.1 kv.2 a) [], hu, ?_⟩
  intro k
  rw [lookupKey_foldl_insertKey l [] k hnd]
  cases h : lookupKey k l <;> simp [lookupKey]

/-- Witness for C1 at a concrete two-entry mapping, one entry expired. -/
theorem C1_roundtrip_witness :
    sampleCache.items = some sampleEntries ∧
    keysNodup sampleEntries ∧
    (MarshalJSON sampleCache = .ok sampleEntries ∧
     (UnmarshalJSON (newCache Int) (some sampleEntries)).1 = .ok () ∧
     ∃ l', (UnmarshalJSON (newCache Int) (some sampleEntries)).2.items = some l' ∧
       ∀ k, lookupKey k l' = lookupKey k sampleEntries) :=
  ⟨rfl, by decide,
   C1_marshal_unmarshal_roundtrip sampleCache sampleEntries rfl (by decide)⟩

/-- C9: on a non-closed engine, `UnmarshalJSON` of a well-formed snapshot
merges it into the existing mapping: snapshot keys end up bound to the
snapshot's value and expiry (overwriting), other keys keep their prior
entry, and no statistics counter (Hits, Misses, Evictions, SizeBytes) is
reset or changed. -/
theorem C9_unmarshal_merges {V : Type} (c : Cache V) (cur snap : Entries V)
    (hc : c.items = some cur) (hnd : keysNodup snap) :
    (UnmarshalJSON c (some snap)).1 = .ok () ∧
    (∃ l', (UnmarshalJSON c (some snap)).2.items = some l' ∧
      (∀ k it, lookupKey k snap = some it → lookupKey k l' = some it) ∧
      (∀ k, lookupKey k snap = none → lookupKey k l' = lookupKey k cur)) ∧
    (UnmarshalJSON c (some snap)).2.stat = c.stat := by
  refine ⟨by simp [UnmarshalJSON, hc], ?_, by simp [UnmarshalJSON, hc]⟩
  refine ⟨snap.foldl (fun a kv => insertKey kv.1 kv.2 a) cur,
    by simp [UnmarshalJSON, hc], ?_, ?_⟩
  · intro k it h
    rw [lookupKey_foldl_insertKey snap cur k hnd, h]
  · intro k h
    rw [lookupKey_foldl_insertKey snap cur k hnd, h]

/-- Witness for C9 at a concrete overlap: snapshot key "b" overwrites,
key "a" survives, key "c" is added, statistics stay put. -/
theorem C9_unmarshal_merges_witness :
    sampleCache.items = some sampleEntries ∧
    keysNodup sampleSnap ∧
    ((UnmarshalJSON sampleCache (some sampleSnap)).1 = .ok () ∧
     (∃ l', (UnmarshalJSON sampleCache (some sampleSnap)).2.items = some l' ∧
       (∀ k it, lookupKey k sampleSnap = some it → lookupKey k l' = some it) ∧
       (∀ k, lookupKey k sampleSnap = none → lookupKey k l' = lookupKey k sampleEntries)) ∧
     (UnmarshalJSON sampleCache (some sampleSnap)).2.stat = sampleCache.stat) :=
  ⟨rfl, by decide,
   C9_unmarshal_merges sampleCache sampleEntries sampleSnap rfl (by decide)⟩

/-- C5: `Close` is idempotent — the first call cancels the engine's own
cancellation token and discards the entry mapping, a second call changes
nothing and causes no error — and after `Close` every listed operation
(`Set`, `SetWithContext`, `Get`, `GetWithContext`, `OnEvicted`,
`MarshalJSON`, `MarshalJSONWithContext`, `UnmarshalJSON`,
`UnmarshalJSONWithContext`, the context variants with a live token) fails
with `ClosedError` and leaves the closed state unchanged. -/
theorem C5_close_behavior {V : Type} (sz : V → Int) (c : Cache V) (l : Entries V)
    (hc : c.items = some l) (hcf : c.cancelSet = true)
    (key : String) (value : V) (ttl now : Int) (bytes : Option (Snapshot V)) :
    (Close c).items = none ∧
    (Close c).ctxCancelled = true ∧
    Close (Close c) = Close c ∧
    Set sz (Close c) key value ttl now = (.error .closed, Close c) ∧
    SetWithContext sz false (Close c) key value ttl now = (.error .closed, Close c) ∧
    Get (Close c) key now = (.error .closed, Close c, []) ∧
    GetWithContext false (Close c) key now = (.error .closed, Close c, []) ∧
    OnEvicted (Close c) = (.error .closed, Close c) ∧
    MarshalJSON (Close c) = .error .closed ∧
    MarshalJSONWithContext false (Close c) = .error .closed ∧
    UnmarshalJSON (Close c) bytes = (.error .closed, Close c) ∧
    UnmarshalJSONWithContext false (Close c) bytes = (.error .closed, Close c) := by
  have h1 : (Close c).items = none := by simp [Close, hc]
  refine ⟨h1, by simp [Close, hc, hcf], by simp [Close, hc], ?_, ?_, ?_, ?_, ?_, ?_, ?_, ?_, ?_⟩
  · simp [Set, h1]
  · simp [SetWithContext, h1]
  · simp [Get, h1]
  · simp [GetWithContext, h1]
  · simp [OnEvicted, h1]
  · simp [MarshalJSON, h1]
  · simp [MarshalJSONWithContext, h1]
  · simp [UnmarshalJSON, h1]
  · simp [UnmarshalJSONWithContext, h1]

/-- Witness for C5 at a concrete open engine. -/
theorem C5_close_behavior_witness :
    sampleCache.items = some sampleEntries ∧
    sampleCache.cancelSet = true ∧
    ((Close sampleCache).items = none ∧
     (Close sampleCache).ctxCancelled = true ∧
     Close (Close sampleCache) = Close sampleCache ∧
     Set szInt (Close sampleCache) "k" 3 5 0 = (.error .closed, Close sampleCache) ∧
     SetWithContext szInt false (Close sampleCache) "k" 3 5 0
       = (.error .closed, Close sampleCache) ∧
     Get (Close sampleCache) "k" 0 = (.error .closed, Close sampleCache, []) ∧
     GetWithContext false (Close sampleCache) "k" 0
       = (.error .closed, Close sampleCache, []) ∧
     OnEvicted (Close sampleCache) = (.error .closed, Close sampleCache) ∧
     MarshalJSON (Close sampleCache) = .error .closed ∧
     MarshalJSONWithContext false (Close sampleCache) = .error .closed ∧
     UnmarshalJSON (Close sampleCache) none = (.error .closed, Close sampleCache) ∧
     UnmarshalJSONWithContext false (Close sampleCache) none
       = (.error .closed, Close sampleCache)) :=
  ⟨rfl, rfl, C5_close_behavior szInt sampleCache sampleEntries rfl rfl "k" 3 5 0 none⟩

/-- C8: one sweeper cycle (`clean` run at a fixed instant) removes exactly
the entries whose expiry has passed at the scan instant, leaves every
unexpired entry untouched, invokes the eviction callback (when registered)
once per removed entry with its key and value, increments `Evictions`
once per removed entry, subtracts `sizeof` from `SizeBytes` once per
removed entry, and changes no other counter. -/
theorem C8_clean_correct {V : Type} (c : Cache V) (l : Entries V) (now : Int)
    (hc : c.items = some l) (hnd : keysNodup l) :
    (∃ l', (clean c now).1.items = some l' ∧
      (∀ k it, lookupKey k l = some it → it.ttl < now → lookupKey k l' = none) ∧
      (∀ k it, lookupKey k l = some it → now ≤ it.ttl → lookupKey k l' = some it) ∧
      (∀ k, lookupKey k l = none → lookupKey k l' = none)) ∧
    (clean c now).2
      = (if c.onEvicted then
          (l.filter (fun kv => decide (kv.2.ttl < now))).map (fun kv => (kv.1, kv.2.value))
        else []) ∧
    (clean c now).1.stat.evictions
      = c.stat.evictions + (l.filter (fun kv => decide (kv.2.ttl < now))).length ∧
    (clean c now).1.stat.sizeBytes
      = c.stat.sizeBytes - (l.filter (fun kv => decide (kv.2.ttl < now))).length * c.sizeof ∧
    (clean c now).1.stat.hits = c.stat.hits ∧
    (clean c now).1.stat.misses = c.stat.misses := by
  by_cases hlen : 0 < (l.filter (fun kv => decide (kv.2.ttl < now))).length
  · have hcl : clean c now
        = ({ c with
              items := some ((l.filter (fun kv => decide (kv.2.ttl < now))).foldl
                  (cleanStep c.sizeof c.onEvicted) (l, c.stat, [])).1
              stat := ((l.filter (fun kv => decide (kv.2.ttl < now))).foldl
                  (cleanStep c.sizeof c.onEvicted) (l, c.stat, [])).2.1 },
           ((l.filter (fun kv => decide (kv.2.ttl < now))).foldl
              (cleanStep c.sizeof c.onEvicted) (l, c.stat, [])).2.2) := by
      simp only [clean, hc]
      rw [if_pos hlen]
    obtain ⟨h1, h2, h3, h4, h5, h6⟩ :=
      foldl_cleanStep_spec c.sizeof c.onEvicted
        (l.filter (fun kv => decide (kv.2.ttl < now))) (l, c.stat, [])
    rw [hcl]
    refine ⟨⟨_, rfl, ?_, ?_, ?_⟩, by simpa using h6, by simpa using h4, by simpa using h5,
      by simpa using h2, by simpa using h3⟩
    · intro k it hk hlt
      rw [h1]
      rw [lookupKey_foldl_eraseKey]
      have hmem : k ∈ (l.filter (fun kv => decide (kv.2.ttl < now))).map Prod.fst :=
        (mem_expiredKeys_iff hnd now k).2 ⟨it, hk, hlt⟩
      simp [hmem]
    · intro k it hk hle
      rw [h1]
      rw [lookupKey_foldl_eraseKey]
      have hnone : k ∉ (l.filter (fun kv => decide (kv.2.ttl < now))).map Prod.fst := by
        intro hmem
        obtain ⟨it', hit', hlt'⟩ := (mem_expiredKeys_iff hnd now k).1 hmem
        rw [hk] at hit'
        injection hit' with hit'
        exact absurd (hit' ▸ hlt') (not_lt.2 hle)
      simp [hnone, hk]
    · intro k hk
      rw [h1]
      rw [lookupKey_foldl_eraseKey]
      have hnone : k ∉ (l.filter (fun kv => decide (kv.2.ttl < now))).map Prod.fst := by
        intro hmem
        obtain ⟨it, hit, _⟩ := (mem_expiredKeys_iff hnd now k).1 hmem
        rw [hk] at hit
        exact Option.noConfusion hit
      simp [hnone, hk]
  · have hnil : l.filter (fun kv => decide (kv.2.ttl < now)) = [] := by
      cases hf : l.filter (fun kv => decide (kv.2.ttl < now)) with
      | nil => rfl
      | cons hd tl => rw [hf] at hlen; simp at hlen
    have hcl : clean c now = (c, []) := by
      simp only [clean, hc]
      rw [if_neg hlen]
    rw [hcl]
    refine ⟨⟨l, hc, ?_, ?_, ?_⟩, by simp [hnil], by simp [hnil], by simp [hnil], rfl, rfl⟩
    · intro k it hk hlt
      have hin := lookupKey_mem hk
      have : (k, it) ∈ l.filter (fun kv => decide (kv.2.ttl < now)) :=
        List.mem_filter.2 ⟨hin, by simpa using hlt⟩
      rw [hnil] at this
      simp at this
    · intro k it hk _
      exact hk
    · intro k hk
      exact hk

/-- Witness for C8 at a concrete instant where exactly one of the two
entries has expired. -/
theorem C8_clean_correct_witness :
    sampleCache.items = some sampleEntries ∧
    keysNodup sampleEntries ∧
    ((∃ l', (clean sampleCache 0).1.items = some l' ∧
      (∀ k it, lookupKey k sampleEntries = some it → it.ttl < 0 →
        lookupKey k l' = none) ∧
      (∀ k it, lookupKey k sampleEntries = some it → (0 : Int) ≤ it.ttl →
        lookupKey k l' = some it) ∧
      (∀ k, lookupKey k sampleEntries = none → lookupKey k l' = none)) ∧
     (clean sampleCache 0).2
       = (if sampleCache.onEvicted then
           (sampleEntries.filter (fun kv => decide (kv.2.ttl < 0))).map
             (fun kv => (kv.1, kv.2.value))
         else []) ∧
     (clean sampleCache 0).1.stat.evictions
       = sampleCache.stat.evictions
         + (sampleEntries.filter (fun kv => decide (kv.2.ttl < 0))).length ∧
     (clean sampleCache 0).1.stat.sizeBytes
       = sampleCache.stat.sizeBytes
         - (sampleEntries.filter (fun kv => decide (kv.2.ttl < 0))).length
             * sampleCache.sizeof ∧
     (clean sampleCache 0).1.stat.hits = sampleCache.stat.hits ∧
     (clean sampleCache 0).1.stat.misses = sampleCache.stat.misses) :=
  ⟨rfl, by decide, C8_clean_correct sampleCache sampleEntries 0 rfl (by decide)⟩

theorem step_stat_accounting {V : Type} (sz : V → Int) (c : Cache V) (op : Op V) :
    (step sz c op).stat.hits + (step sz c op).stat.misses
      = c.stat.hits + c.stat.misses + readScore c op ∧
    (step sz c op).stat.evictions = c.stat.evictions + evictScore c op := by
  cases op with
  | set key value ttl now =>
      simp only [step, readScore, evictScore, Set]
      cases c.items <;> simp
  | setCtx done key value ttl now =>
      cases done with
      | true => simp [step, readScore, evictScore, SetWithContext]
      | false =>
          simp only [step, readScore, evictScore, SetWithContext,
            Bool.false_eq_true, if_false]
          cases c.items <;> simp
  | get key now =>
      simp only [step, readScore, evictScore]
      cases hit : c.items with
      | none => simp [Get, hit]
      | some items =>
          cases hl : lookupKey key items with
          | none =>
              simp [Get, hit, hl]
              omega
          | some it =>
              by_cases hlt : it.ttl < now
              · simp [Get, hit, hl, hlt]
              · simp [Get, hit, hl, hlt]
                omega
  | getCtx done key now =>
      cases done with
      | true => simp [step, readScore, evictScore, GetWithContext]
      | false =>
          simp only [step, readScore, evictScore]
          cases hit : c.items with
          | none => simp [GetWithContext, hit]
          | some items =>
              cases hl : lookupKey key items with
              | none =>
                  simp [GetWithContext, hit, hl]
                  omega
              | some it =>
                  by_cases hlt : it.ttl < now
                  · simp [GetWithContext, hit, hl, hlt]
                  · simp [GetWithContext, hit, hl, hlt]
                    omega
  | sweep now =>
      simp only [step, readScore, evictScore]
      cases hit : c.items with
      | none => simp [clean, hit]
      | some items =>
          by_cases hlen : 0 < (items.filter (fun kv => decide (kv.2.ttl < now))).length
          · obtain ⟨_, h2, h3, h4, _, _⟩ :=
              foldl_cleanStep_spec c.sizeof c.onEvicted
                (items.filter (fun kv => decide (kv.2.ttl < now))) (items, c.stat, [])
            have hcl : (clean c now).1
                = { c with
                      items := some ((items.filter (fun kv => decide (kv.2.ttl < now))).foldl
                          (cleanStep c.sizeof c.onEvicted) (items, c.stat, [])).1
                      stat := ((items.filter (fun kv => decide (kv.2.ttl < now))).foldl
                          (cleanStep c.sizeof c.onEvicted) (items, c.stat, [])).2.1 } := by
              simp only [clean, hit]
              rw [if_pos hlen]
            rw [hcl]
            constructor
            · simp [h2, h3]
            · simp [h4]
          · have hcl : (clean c now).1 = c := by
              simp only [clean, hit]
              rw [if_neg hlen]
            rw [hcl]
            simp only [Nat.not_lt, Nat.le_zero] at hlen
            simp [hlen]
  | register =>
      simp only [step, readScore, evictScore, OnEvicted]
      cases c.items <;> simp
  | marshal => simp [step, readScore, evictScore]
  | unmarshal bytes =>
      simp only [step, readScore, evictScore, UnmarshalJSON]
      cases c.items with
      | none => simp
      | some items => cases bytes <;> simp
  | close =>
      simp only [step, readScore, evictScore, Close]
      cases c.items <;> simp

/-- C2 fails as stated: a `Get` that finds an expired entry increments
neither `Hits` nor `Misses` (only `Evictions`). Concretely, after `Set` of
"k" with TTL -1 at instant 0 and a `Get` of "k" at instant 5, the `Get`
completes with `ExpiredError` yet `Hits + Misses = 0`, where the claim
demands this read attempt be counted as a miss. -/
theorem C2_counterexample :
    (Get ((Set szInt (newCache Int) "k" 0 (-1) 0).2) "k" 5).1
      = .error (.expired "k") ∧
    (Get ((Set szInt (newCache Int) "k" 0 (-1) 0).2) "k" 5).2.1.stat.hits
      + (Get ((Set szInt (newCache Int) "k" 0 (-1) 0).2) "k" 5).2.1.stat.misses
      = 0 ∧
    (Get ((Set szInt (newCache Int) "k" 0 (-1) 0).2) "k" 5).2.1.stat.evictions
      = 1 := by
  decide

/-- C2 (amended): after any sequence of operations, `Hits + Misses` grew by
exactly the number of completed `Get`/`GetWithContext` calls that found a
live entry (hit) or found no entry (miss with `NotFoundError`) — a read
that finds an expired entry counts toward neither, incrementing only
`Evictions` — and `Evictions` grew by exactly the number of removals due
to expiry (lazy on reads or by the sweeper); in particular `Set`
overwrites never change `Evictions`. -/
theorem C2_stats_accounting {V : Type} (sz : V → Int) (c : Cache V)
    (ops : List (Op V)) :
    (run sz c ops).stat.hits + (run sz c ops).stat.misses
      = c.stat.hits + c.stat.misses + readCount sz c ops ∧
    (run sz c ops).stat.evictions = c.stat.evictions + evictCount sz c ops := by
  induction ops generalizing c with
  | nil => simp [run, readCount, evictCount]
  | cons op ops ih =>
      obtain ⟨ha, hb⟩ := step_stat_accounting sz c op
      obtain ⟨ia, ib⟩ := ih (step sz c op)
      constructor
      · simp only [run, readCount]
        rw [ia, ha]
        omega
      · simp only [run, evictCount]
        rw [ib, hb]
        omega

theorem setN_from_state {V : Type} (sz : V → Int) (key : String) (value : V)
    (ttl now : Int) (hpos : 0 < sz value) :
    ∀ (n : Nat) (st : Stats),
    setN sz key value ttl now n
      { items := some [(key, { value := value, ttl := now + ttl })]
        onEvicted := false
        stat := st
        sizeof := sz value
        cancelSet := true
        ctxCancelled := false }
      = { items := some [(key, { value := value, ttl := now + ttl })]
          onEvicted := false
          stat := { st with sizeBytes := st.sizeBytes + (n : Int) * sz value }
          sizeof := sz value
          cancelSet := true
          ctxCancelled := false } := by
  intro n
  induction n with
  | zero =>
      intro st
      simp [setN]
  | succ n ih =>
      intro st
      have hne : ¬ sz value = 0 := by omega
      have hstep : (Set sz
          ({ items := some [(key, { value := value, ttl := now + ttl })]
             onEvicted := false
             stat := st
             sizeof := sz value
             cancelSet := true
             ctxCancelled := false } : Cache V) key value ttl now).2
          = { items := some [(key, { value := value, ttl := now + ttl })]
              onEvicted := false
              stat := { st with sizeBytes := st.sizeBytes + sz value }
              sizeof := sz value
              cancelSet := true
              ctxCancelled := false } := by
        simp [Set, hne, insertKey]
      rw [setN, hstep, ih]
      have harith : (st.sizeBytes + sz value) + (n : Int) * sz value
          = st.sizeBytes + ((n : Nat) + 1 : Int) * sz value := by ring
      simp only [Nat.cast_succ] at harith ⊢
      rw [harith]

theorem setN_closed_form {V : Type} (sz : V → Int) (key : String) (value : V)
    (ttl now : Int) (hpos : 0 < sz value) (n : Nat) (hn : 1 ≤ n) :
    setN sz key value ttl now n (newCache V)
      = { items := some [(key, { value := value, ttl := now + ttl })]
          onEvicted := false
          stat := { hits := 0, misses := 0, evictions := 0
                    sizeBytes := (n : Int) * sz value }
          sizeof := sz value
          cancelSet := true
          ctxCancelled := false } := by
  obtain ⟨m, rfl⟩ : ∃ m, n = m + 1 := ⟨n - 1, by omega⟩
  have hfirst : (Set sz (newCache V) key value ttl now).2
      = { items := some [(key, { value := value, ttl := now + ttl })]
          onEvicted := false
          stat := { hits := 0, misses := 0, evictions := 0, sizeBytes := sz value }
          sizeof := sz value
          cancelSet := true
          ctxCancelled := false } := by
    simp [Set, newCache, insertKey]
  rw [setN, hfirst,
    setN_from_state sz key value ttl now hpos m
      { hits := 0, misses := 0, evictions := 0, sizeBytes := sz value }]
  have harith : (sz value + (m : Int) * sz value) = ((m : Nat) + 1 : Int) * sz value := by
    ring
  simp only [Nat.cast_succ] at harith ⊢
  rw [harith]

/-- C10: every successful `Set` adds the per-instance `sizeof` to
`SizeBytes` even when it overwrites an existing key, so `n` sets of the
same key leave `SizeBytes = n * sizeof` while exactly one entry is stored;
expiring that key via `Get` then subtracts `sizeof` only once, leaving
`(n-1) * sizeof`, which is positive whenever the key was overwritten at
least once (`n ≥ 2`). -/
theorem C10_overwrite_size_accounting {V : Type} (sz : V → Int) (key : String)
    (value : V) (ttl now : Int) (hpos : 0 < sz value) (n : Nat) (hn : 1 ≤ n)
    (now₂ : Int) (hexp : now + ttl < now₂) :
    (∀ (c : Cache V) (l : Entries V), c.items = some l →
      (Set sz c key value ttl now).2.stat.sizeBytes
        = c.stat.sizeBytes + (if c.sizeof = 0 then sz value else c.sizeof)) ∧
    (setN sz key value ttl now n (newCache V)).stat.sizeBytes
      = (n : Int) * sz value ∧
    (setN sz key value ttl now n (newCache V)).items
      = some [(key, { value := value, ttl := now + ttl })] ∧
    (Get (setN sz key value ttl now n (newCache V)) key now₂).2.1.stat.sizeBytes
      = ((n : Int) - 1) * sz value ∧
    (Get (setN sz key value ttl now n (newCache V)) key now₂).2.1.items
      = some [] ∧
    (2 ≤ n →
      0 < (Get (setN sz key value ttl now n (newCache V)) key now₂).2.1.stat.sizeBytes) := by
  have hform := setN_closed_form sz key value ttl now hpos n hn
  have hget : (Get (setN sz key value ttl now n (newCache V)) key now₂).2.1
      = { items := some []
          onEvicted := false
          stat := { hits := 0, misses := 0, evictions := 1
                    sizeBytes := (n : Int) * sz value - sz value }
          sizeof := sz value
          cancelSet := true
          ctxCancelled := false } := by
    rw [hform]
    simp [Get, lookupKey, hexp, eraseKey]
  refine ⟨?_, by rw [hform], by rw [hform], ?_, by rw [hget], ?_⟩
  · intro c l hc
    simp [Set, hc]
  · rw [hget]
    have : (n : Int) * sz value - sz value = ((n : Int) - 1) * sz value := by ring
    simpa using this
  · intro h2
    rw [hget]
    have h1 : (0 : Int) < (n : Int) - 1 := by omega
    have hmul := mul_pos h1 hpos
    have heq : ((n : Int) - 1) * sz value = (n : Int) * sz value - sz value := by ring
    rw [heq] at hmul
    simpa using hmul

/-- Witness for C10 with two sets of the same key (one overwrite):
`SizeBytes = 16` with a single stored entry, then the expiring `Get`
leaves the positive residual `8`. -/
theorem C10_overwrite_size_witness :
    (0 : Int) < szInt 7 ∧
    1 ≤ 2 ∧
    (0 : Int) + 5 < 100 ∧
    ((∀ (c : Cache Int) (l : Entries Int), c.items = some l →
       (Set szInt c "k" 7 5 0).2.stat.sizeBytes
         = c.stat.sizeBytes + (if c.sizeof = 0 then szInt 7 else c.sizeof)) ∧
     (setN szInt "k" 7 5 0 2 (newCache Int)).stat.sizeBytes
       = (2 : Int) * szInt 7 ∧
     (setN szInt "k" 7 5 0 2 (newCache Int)).items
       = some [("k", { value := 7, ttl := 0 + 5 })] ∧
     (Get (setN szInt "k" 7 5 0 2 (newCache Int)) "k" 100).2.1.stat.sizeBytes
       = ((2 : Int) - 1) * szInt 7 ∧
     (Get (setN szInt "k" 7 5 0 2 (newCache Int)) "k" 100).2.1.items
       = some [] ∧
     (2 ≤ 2 →
       0 < (Get (setN szInt "k" 7 5 0 2 (newCache Int)) "k" 100).2.1.stat.sizeBytes)) :=
  ⟨by decide, by decide, by decide,
   C10_overwrite_size_accounting szInt "k" 7 5 0 (by decide) 2 (by decide) 100 (by decide)⟩

end Memo
